import Mathlib

/-!
# Shallow embedding of the petstore-hexarch-rust core

This file embeds the domain model, the value objects, the generic service,
and the relational repository adapter of the pet-catalog service, and proves
the stated properties about them.

Sources embedded:
- `src/lib/domain/petstore/models/pet.rs` (Pet, Status, CreatePetRequest, CreatePetError)
- `src/lib/domain/petstore/models/category.rs`, `tag.rs`
- `src/lib/domain/petstore/models/value_objects.rs` (PetName, PhotoUrls, Tags, Status parsing)
- `src/lib/domain/petstore/service.rs` (the generic Service over a repository)
- `src/lib/outbound/repository.rs` (the Postgres adapter, against a relational
  store state made of the five tables `pets`, `categories`, `tags`,
  `pet_photos`, `pet_tags`)

Rust `i64` ids are modelled as `Int` (only bound, compared and copied — no
arithmetic that could wrap), fallible constructors return `Except`, and the
async database calls of the adapter become explicit state passing over a
`DB` value holding the five tables.
-/

deriving instance DecidableEq for Except

namespace Petstore

/-- Pet status enum from `models/pet.rs`: `Available`, `Pending`, `Sold`. -/
inductive Status where
  | Available
  | Pending
  | Sold
deriving DecidableEq, Repr

/-- Rust `Status::to_str` from `models/pet.rs`: the lowercase wire string. -/
def Status.to_str : Status → String
  | .Available => "available"
  | .Pending => "pending"
  | .Sold => "sold"

/-- Rust `Category` from `models/category.rs`: optional id, optional name. -/
structure Category where
  id : Option Int
  name : Option String
deriving DecidableEq, Repr

/-- Rust `Category::new` from `models/category.rs`. -/
def Category.new : Category := ⟨none, none⟩

/-- Rust `Category::with_values` from `models/category.rs`. -/
def Category.with_values (id : Int) (name : String) : Category :=
  ⟨some id, some name⟩

/-- Rust `Tag` from `models/tag.rs`: optional id, optional name. -/
structure Tag where
  id : Option Int
  name : Option String
deriving DecidableEq, Repr

/-- Rust `Tag::new` from `models/tag.rs`. -/
def Tag.new : Tag := ⟨none, none⟩

/-- Rust `Tag::with_values` from `models/tag.rs`. -/
def Tag.with_values (id : Int) (name : String) : Tag :=
  ⟨some id, some name⟩

/-- Rust `Pet` from `models/pet.rs` (the `Box` around `Category` is elided:
it only changes memory layout, not values). -/
structure Pet where
  id : Option Int
  name : String
  category : Option Category
  photo_urls : List String
  tags : List Tag
  status : Option Status
deriving DecidableEq, Repr

/-- Rust `Pet::new` from `models/pet.rs`: fresh pet with the given name,
no id/category/photos/tags, and status defaulted to `Some(Available)`. -/
def Pet.new (name : String) : Pet :=
  { id := none, name := name, category := none, photo_urls := [],
    tags := [], status := some Status.Available }

/-- Rust `Pet::set_category` from `models/pet.rs`. -/
def Pet.set_category (p : Pet) (c : Category) : Pet :=
  { p with category := some c }

/-- Rust `Pet::add_photo` from `models/pet.rs`: pushes onto `photo_urls`. -/
def Pet.add_photo (p : Pet) (url : String) : Pet :=
  { p with photo_urls := p.photo_urls ++ [url] }

/-- Rust `Pet::add_tag` from `models/pet.rs`: pushes onto `tags`. -/
def Pet.add_tag (p : Pet) (t : Tag) : Pet :=
  { p with tags := p.tags ++ [t] }

/-- Rust `Pet::set_status` from `models/pet.rs`. -/
def Pet.set_status (p : Pet) (s : Status) : Pet :=
  { p with status := some s }

/-- Rust `CreatePetRequest` from `models/pet.rs`. -/
structure CreatePetRequest where
  id : Option Int
  name : String
  category : Option Category
  photo_urls : List String
  tags : List Tag
  status : Option Status
deriving DecidableEq, Repr

/-- Rust `CreatePetError` from `models/pet.rs`. The `anyhow::Error` cause inside
`Unknown` is modelled as its message string. -/
inductive CreatePetError where
  | Duplicate (name : String)
  | Unknown (cause : String)
deriving DecidableEq, Repr

/-! ## Value objects (`models/value_objects.rs`) -/

/-- Rust `PetNameError` from `value_objects.rs`. -/
inductive PetNameError where
  | Empty
deriving DecidableEq, Repr

/-- Rust `PetName` newtype from `value_objects.rs`. -/
structure PetName where
  inner : String
deriving DecidableEq, Repr

/-- Rust's `str::trim`: the string with leading and trailing whitespace
removed (computed over the character list so the kernel can evaluate it;
Lean's own `String.trim` agrees on ASCII input but does not reduce). -/
def rust_trim (s : String) : String :=
  ⟨((s.data.dropWhile Char.isWhitespace).reverse.dropWhile Char.isWhitespace).reverse⟩

/-- Rust `PetName::new` from `value_objects.rs`: rejects a name whose trim is
empty, otherwise stores the string exactly as supplied. -/
def PetName.new (name : String) : Except PetNameError PetName :=
  if rust_trim name = "" then .error .Empty else .ok ⟨name⟩

/-- Rust `PetName::into_inner` from `value_objects.rs`. -/
def PetName.into_inner (p : PetName) : String := p.inner

/-- Rust `PhotoUrlsError` from `value_objects.rs`. -/
inductive PhotoUrlsError where
  | Empty
deriving DecidableEq, Repr

/-- Rust `PhotoUrls` newtype from `value_objects.rs`. -/
structure PhotoUrls where
  inner : List String
deriving DecidableEq, Repr

/-- Rust `PhotoUrls::new` from `value_objects.rs`: rejects an empty list. -/
def PhotoUrls.new (urls : List String) : Except PhotoUrlsError PhotoUrls :=
  if urls = [] then .error .Empty else .ok ⟨urls⟩

/-- Rust `TagsError` from `value_objects.rs`. -/
inductive TagsError where
  | Empty
deriving DecidableEq, Repr

/-- Rust `Tags` newtype from `value_objects.rs`. -/
structure Tags where
  inner : List Tag
deriving DecidableEq, Repr

/-- Rust `Tags::new` from `value_objects.rs`: a present-but-empty list is an
error, a present non-empty list is kept, an absent list becomes `[]`. -/
def Tags.new (tags : Option (List Tag)) : Except TagsError Tags :=
  match tags with
  | some t => if t = [] then .error .Empty else .ok ⟨t⟩
  | none => .ok ⟨[]⟩

/-- Rust `StatusError` from `value_objects.rs`. -/
inductive StatusError where
  | InvalidStatus (invalid_status : String)
deriving DecidableEq, Repr

/-- Rust `TryFrom<Option<String>> for Status` from `value_objects.rs`:
case-sensitive parse of the three lowercase strings, absent defaults to
`Available`, anything else is `InvalidStatus`. -/
def Status.try_from (value : Option String) : Except StatusError Status :=
  match value with
  | some s =>
      if s = "available" then .ok .Available
      else if s = "pending" then .ok .Pending
      else if s = "sold" then .ok .Sold
      else .error (.InvalidStatus s)
  | none => .ok .Available

/-- Rust `CategoryError` from `value_objects.rs`. -/
inductive CategoryError where
  | InvalidCategory
deriving DecidableEq, Repr

/-- Rust `TryFrom<Option<Category>> for Category` from `value_objects.rs`:
absent becomes `Category::new()`, present passes through; never fails. -/
def Category.try_from (value : Option Category) : Except CategoryError Category :=
  match value with
  | some c => .ok c
  | none => .ok Category.new

/-! ## The relational store

The adapter in `outbound/repository.rs` runs SQL against the five tables
`pets(id, name, category_id, status)`, `categories(id, name)`,
`tags(id, name)`, `pet_photos(pet_id, url)`, `pet_tags(pet_id, tag_id)`.
Row lists keep table insertion order, which is the only order the adapter's
unordered `SELECT`s can observe.

Modelled from the spec: the migration files defining these tables are not
under `src/`, so the column shapes and the id generation come from the
spec. The spec states that a pet's "id is assigned by the store on
creation" and that step 3 of `add_pet` captures "the generated pet id", so
each table carries a next-id counter and a row whose bound id is absent
receives the generated one (an explicitly bound id is echoed back, as the
integration fixtures show). The spec states the inserted pet row carries
"the normalized status string" and that status "defaults to `Available`
when absent or unspecified", so the `status` column is a string and an
absent request status is stored as `"available"`. The `ON CONFLICT`
clauses in `src/` require a unique index on `categories.id` and on
`tags.name`; no further constraints are assumed. -/
structure PetRow where
  id : Int
  name : String
  category_id : Option Int
  status : String
deriving DecidableEq, Repr

/-- A row of the `categories` table (`name` is a nullable column: the
adapter binds `Option<String>`). -/
structure CategoryRow where
  id : Int
  name : Option String
deriving DecidableEq, Repr

/-- A row of the `tags` table (`name` is a nullable column). -/
structure TagRow where
  id : Int
  name : Option String
deriving DecidableEq, Repr

/-- The state of the relational store: the five tables plus the store's
id sequences (see the `Modelled from the spec` note on `PetRow`). -/
structure DB where
  pets : List PetRow
  categories : List CategoryRow
  tags : List TagRow
  pet_photos : List (Int × String)
  pet_tags : List (Int × Int)
  next_pet_id : Int
  next_category_id : Int
  next_tag_id : Int
deriving DecidableEq, Repr

/-- The store right after the migrations: all tables empty. -/
def DB.empty : DB := ⟨[], [], [], [], [], 1, 1, 1⟩

/-- The category upsert of `add_pet` (`repository.rs:29-36`):
`INSERT INTO categories (id, name) VALUES ($1, $2) ON CONFLICT (id) DO
UPDATE SET name = EXCLUDED.name RETURNING id`. A bound id that conflicts
overwrites that row's name and is echoed; a fresh bound id inserts; an
absent id receives the store-generated one (spec-modelled, see `PetRow`). -/
def upsert_category (db : DB) (c : Category) : Int × DB :=
  match c.id with
  | some cid =>
      if db.categories.any (fun row => row.id = cid) then
        (cid, { db with categories :=
          db.categories.map (fun row =>
            if row.id = cid then { row with name := c.name } else row) })
      else
        (cid, { db with categories := db.categories ++ [⟨cid, c.name⟩] })
  | none =>
      (db.next_category_id,
       { db with categories := db.categories ++ [⟨db.next_category_id, c.name⟩],
                 next_category_id := db.next_category_id + 1 })

/-- The tag upsert of `add_pet` (`repository.rs:70-77`):
`INSERT INTO tags (id, name) VALUES ($1, $2) ON CONFLICT (name) DO UPDATE
SET name = EXCLUDED.name RETURNING id`. A non-null name that conflicts
returns the existing row's id (the update writes the name back unchanged);
otherwise the row is inserted (a null name never conflicts) with the bound
id, or the store-generated one when the bound id is absent. -/
def upsert_tag (db : DB) (t : Tag) : Int × DB :=
  match t.name with
  | some tn =>
      match db.tags.find? (fun row => row.name = some tn) with
      | some row => (row.id, db)
      | none =>
          let tid := t.id.getD db.next_tag_id
          (tid, { db with tags := db.tags ++ [⟨tid, t.name⟩],
                          next_tag_id := max db.next_tag_id (tid + 1) })
  | none =>
      let tid := t.id.getD db.next_tag_id
      (tid, { db with tags := db.tags ++ [⟨tid, t.name⟩],
                      next_tag_id := max db.next_tag_id (tid + 1) })

/-- The pet insert of `add_pet` (`repository.rs:43-52`):
`INSERT INTO pets (id, name, category_id, status) VALUES ($1, $2, $3, $4)
RETURNING id`, binding `req.id`, `req.name`, the resolved category id and
`req.status.map(to_str)`. Id generation and the stored status string for
an absent bound value are spec-modelled, see `PetRow`. -/
def insert_pet (db : DB) (req_id : Option Int) (name : String)
    (category_id : Option Int) (status : Option Status) : Int × DB :=
  let pid := req_id.getD db.next_pet_id
  (pid, { db with
            pets := db.pets ++ [⟨pid, name, category_id,
                                 (status.map Status.to_str).getD "available"⟩],
            next_pet_id := max db.next_pet_id (pid + 1) })

/-- The tag loop of `add_pet` (`repository.rs:67-87`): for each request
tag, upsert it, then insert the `(pet_id, tag_id)` linking row. -/
def add_tags (db : DB) (pet_id : Int) : List Tag → DB
  | [] => db
  | t :: ts =>
      let r := upsert_tag db t
      let db2 := { r.2 with pet_tags := r.2.pet_tags ++ [(pet_id, r.1)] }
      add_tags db2 pet_id ts

/-- The local result assembly of `add_pet` (`repository.rs:89-103`):
`Pet::new`, then the generated id, then the request's category, photos,
tags and status are copied in — no re-read from the store. -/
def assemble_pet (req : CreatePetRequest) (pet_id : Int) : Pet :=
  let pet := Pet.new req.name
  let pet := { pet with id := some pet_id }
  let pet := match req.category with
    | some c => pet.set_category c
    | none => pet
  let pet := req.photo_urls.foldl Pet.add_photo pet
  let pet := req.tags.foldl Pet.add_tag pet
  match req.status with
  | some s => pet.set_status s
  | none => pet

/-- Rust `PostgresClient::add_pet` (`repository.rs:15-106`): duplicate-name
check, category upsert, pet insert, photo inserts, tag upserts + links,
then the locally assembled `Pet`. Infrastructure failures (connection
loss, decode errors) are outside the model, so the happy path always
reaches the end. -/
def add_pet (db : DB) (req : CreatePetRequest) :
    Except CreatePetError Pet × DB :=
  if db.pets.any (fun row => row.name = req.name) then
    (.error (.Duplicate req.name), db)
  else
    let cat : Option Int × DB :=
      match req.category with
      | some c =>
          let r := upsert_category db c
          (some r.1, r.2)
      | none => (none, db)
    let ins := insert_pet cat.2 req.id req.name cat.1 req.status
    let pet_id := ins.1
    let db3 := { ins.2 with pet_photos :=
        ins.2.pet_photos ++ req.photo_urls.map (fun url => (pet_id, url)) }
    let db4 := add_tags db3 pet_id req.tags
    (.ok (assemble_pet req pet_id), db4)

/-- The read-side status decoding of `find_pet_by_id`
(`repository.rs:130-135`): the three lowercase strings map to their
variants, anything else falls back to `Available`. -/
def decode_status (s : String) : Status :=
  if s = "available" then .Available
  else if s = "pending" then .Pending
  else if s = "sold" then .Sold
  else .Available

/-- The category attachment of `find_pet_by_id` (`repository.rs:139-144`):
the `LEFT JOIN` exposes the joined category's id and name; the category is
attached only when both decode as non-null. -/
def join_category (db : DB) (row : PetRow) (pet : Pet) : Pet :=
  match row.category_id with
  | none => pet
  | some cid =>
      match db.categories.find? (fun c => c.id = cid) with
      | none => pet
      | some c =>
          match c.name with
          | none => pet
          | some cname => pet.set_category (Category.with_values cid cname)

/-- The tag read of `find_pet_by_id` (`repository.rs:156-167`): the join
of `tags` through `pet_tags` restricted to the pet id, in stored order. -/
def pet_tag_rows (db : DB) (pet_id : Int) : List TagRow :=
  ((db.pet_tags.filter (fun pt => pt.1 = pet_id)).map
    (fun pt => db.tags.filter (fun t => t.id = pt.2))).flatten

/-- The tag attachment of `find_pet_by_id` (`repository.rs:178-182`): a
row whose name decodes null is silently dropped, the rest become
`Tag::with_values` (the joined `t.id` column is never null). -/
def add_found_tags (pet : Pet) (rows : List TagRow) : Pet :=
  rows.foldl (fun p t =>
    match t.name with
    | some n => p.add_tag (Tag.with_values t.id n)
    | none => p) pet

/-- Rust `PostgresClient::find_pet_by_id` (`repository.rs:108-185`): first pet
row by id or `None`; then name, id, decoded status, the joined category,
the photo rows in stored order, and the joined tag rows. -/
def find_pet_by_id (db : DB) (pet_id : Int) :
    Except CreatePetError (Option Pet) :=
  match db.pets.find? (fun row => row.id = pet_id) with
  | none => .ok none
  | some row =>
      let pet := Pet.new row.name
      let pet := { pet with id := some row.id }
      let pet := pet.set_status (decode_status row.status)
      let pet := join_category db row pet
      let photo_urls :=
        (db.pet_photos.filter (fun pr => pr.1 = pet_id)).map (fun pr => pr.2)
      let pet := photo_urls.foldl Pet.add_photo pet
      let pet := add_found_tags pet (pet_tag_rows db pet_id)
      .ok (some pet)

/-! ## The service (`domain/petstore/service.rs`)

`Service<R: PetRepository>` delegates both operations to its repository.
The repository trait is modelled as a record of the two operations over an
arbitrary store-state type, mirroring the generic parameter `R`. -/

/-- The `PetRepository` port (`domain/petstore/ports.rs`): the two
operations over a store state of type `σ`. -/
structure PetRepo (σ : Type) where
  add_pet : σ → CreatePetRequest → Except CreatePetError Pet × σ
  find_pet_by_id : σ → Int → Except CreatePetError (Option Pet)

/-- Rust `Service<R>` from `service.rs`: wraps a repository. -/
structure Service (σ : Type) where
  repo : PetRepo σ

/-- Rust `Service::new` from `service.rs`. -/
def Service.new {σ : Type} (repo : PetRepo σ) : Service σ := ⟨repo⟩

/-- Rust `Service::add_pet` from `service.rs:39-42`: returns the repository's
result unchanged. -/
def Service.add_pet {σ : Type} (s : Service σ) (st : σ)
    (req : CreatePetRequest) : Except CreatePetError Pet × σ :=
  s.repo.add_pet st req

/-- Rust `Service::find_pet_by_id` from `service.rs:49-51`: delegates to the
repository. -/
def Service.find_pet_by_id {σ : Type} (s : Service σ) (st : σ)
    (pet_id : Int) : Except CreatePetError (Option Pet) :=
  s.repo.find_pet_by_id st pet_id

/-- The `PetRepository` implementation of `PostgresClient`
(`repository.rs:14`), as a repository record over the store state. -/
def postgres_repo : PetRepo DB :=
  ⟨add_pet, find_pet_by_id⟩

/-! ## Lemmas: the pet builders -/

theorem foldl_add_photo_eq (l : List String) (p : Pet) :
    l.foldl Pet.add_photo p = { p with photo_urls := p.photo_urls ++ l } := by
  induction l generalizing p with
  | nil => simp
  | cons a l ih => rw [List.foldl_cons, ih]; simp [Pet.add_photo]

theorem foldl_add_tag_eq (l : List Tag) (p : Pet) :
    l.foldl Pet.add_tag p = { p with tags := p.tags ++ l } := by
  induction l generalizing p with
  | nil => simp
  | cons a l ih => rw [List.foldl_cons, ih]; simp [Pet.add_tag]

theorem add_found_tags_eq (rows : List TagRow) (p : Pet) :
    add_found_tags p rows =
      { p with tags := p.tags ++
          rows.filterMap (fun r => r.name.map (Tag.with_values r.id)) } := by
  induction rows generalizing p with
  | nil => simp [add_found_tags]
  | cons r rows ih =>
      cases hn : r.name with
      | none =>
          have step : add_found_tags p (r :: rows) = add_found_tags p rows := by
            unfold add_found_tags
            rw [List.foldl_cons]
            simp [hn]
          rw [step, ih]
          simp [List.filterMap_cons, hn]
      | some n =>
          have step : add_found_tags p (r :: rows) =
              add_found_tags (p.add_tag (Tag.with_values r.id n)) rows := by
            unfold add_found_tags
            rw [List.foldl_cons]
            simp [hn]
          rw [step, ih]
          simp [Pet.add_tag, List.filterMap_cons, hn]

theorem join_category_status (db : DB) (row : PetRow) (p : Pet) :
    (join_category db row p).status = p.status := by
  unfold join_category
  repeat' split
  all_goals simp [Pet.set_category]

theorem assemble_pet_eq (req : CreatePetRequest) (pid : Int) :
    assemble_pet req pid =
      { id := some pid, name := req.name, category := req.category,
        photo_urls := req.photo_urls, tags := req.tags,
        status := some (req.status.getD Status.Available) } := by
  unfold assemble_pet
  cases hc : req.category <;> cases hs : req.status <;>
    simp [Pet.new, Pet.set_category, Pet.set_status,
          foldl_add_photo_eq, foldl_add_tag_eq]

/-! ## Lemmas: which tables each write step touches -/

theorem upsert_category_untouched (db : DB) (c : Category) :
    (upsert_category db c).2.pets = db.pets ∧
    (upsert_category db c).2.tags = db.tags ∧
    (upsert_category db c).2.pet_photos = db.pet_photos ∧
    (upsert_category db c).2.pet_tags = db.pet_tags ∧
    (upsert_category db c).2.next_pet_id = db.next_pet_id := by
  unfold upsert_category
  repeat' split <;> simp

theorem upsert_tag_untouched (db : DB) (t : Tag) :
    (upsert_tag db t).2.pets = db.pets ∧
    (upsert_tag db t).2.categories = db.categories ∧
    (upsert_tag db t).2.pet_photos = db.pet_photos ∧
    (upsert_tag db t).2.pet_tags = db.pet_tags := by
  unfold upsert_tag
  repeat' split <;> simp

theorem add_tags_untouched (pid : Int) (ts : List Tag) (db : DB) :
    (add_tags db pid ts).pets = db.pets ∧
    (add_tags db pid ts).categories = db.categories ∧
    (add_tags db pid ts).pet_photos = db.pet_photos := by
  induction ts generalizing db with
  | nil => exact ⟨rfl, rfl, rfl⟩
  | cons t ts ih =>
      have h := upsert_tag_untouched db t
      have h2 := ih { (upsert_tag db t).2 with
        pet_tags := (upsert_tag db t).2.pet_tags ++ [(pid, (upsert_tag db t).1)] }
      exact ⟨h2.1.trans h.1, h2.2.1.trans h.2.1, h2.2.2.trans h.2.2.1⟩

/-! ## Concrete fixtures used by the witness theorems -/

/-- The request of the `test_find_pet_by_id` integration fixture: pet
"doggie" with explicit id 10, category `(1, "Dogs")`, one photo, one tag
`(0, "string")`, status `Available`. -/
def fixture_req : CreatePetRequest :=
  ⟨some 10, "doggie", some (Category.with_values 1 "Dogs"), ["string"],
   [Tag.with_values 0 "string"], some Status.Available⟩

/-- The store after adding `fixture_req` to the empty store. -/
def fixture_db : DB := (add_pet DB.empty fixture_req).2

/-! ## The claims -/

/-- C6: `Tags::new` fails with `EmptyTags` exactly when the argument is a
present-but-empty sequence; `None` normalizes to the empty collection and
a present non-empty sequence is kept, so the absent vs. present-but-empty
distinction is preserved. -/
theorem tags_new_empty_iff :
    (∀ o : Option (List Tag), Tags.new o = .error .Empty ↔ o = some []) ∧
    Tags.new none = .ok ⟨[]⟩ ∧
    (∀ t : List Tag, t ≠ [] → Tags.new (some t) = .ok ⟨t⟩) := by
  refine ⟨fun o => ?_, rfl, fun t ht => ?_⟩
  · cases o with
    | none => simp [Tags.new]
    | some t => by_cases h : t = [] <;> simp [Tags.new, h]
  · simp [Tags.new, ht]

/-- Witness for C6 at the one-element list. -/
theorem tags_new_empty_iff_witness :
    Tags.new (some [Tag.new]) = .ok ⟨[Tag.new]⟩ :=
  tags_new_empty_iff.2.2 [Tag.new] (by simp)

/-- C7: `Status` parsing at the validation boundary maps the three
lowercase strings to their variants, an absent value to `Available`, and
any other string (case-sensitively, so also `"Available"`) to
`InvalidStatus` carrying that string. -/
theorem status_try_from_cases :
    Status.try_from (some "available") = .ok .Available ∧
    Status.try_from (some "pending") = .ok .Pending ∧
    Status.try_from (some "sold") = .ok .Sold ∧
    Status.try_from none = .ok .Available ∧
    (∀ s : String, s ≠ "available" → s ≠ "pending" → s ≠ "sold" →
      Status.try_from (some s) = .error (.InvalidStatus s)) := by
  refine ⟨by decide, by decide, by decide, rfl, fun s h1 h2 h3 => ?_⟩
  simp [Status.try_from, h1, h2, h3]

/-- Witness for C7 at `"bogus"` and at the capitalized `"Available"`. -/
theorem status_try_from_cases_witness :
    Status.try_from (some "bogus") = .error (.InvalidStatus "bogus") ∧
    Status.try_from (some "Available") = .error (.InvalidStatus "Available") :=
  ⟨status_try_from_cases.2.2.2.2 "bogus" (by decide) (by decide) (by decide),
   status_try_from_cases.2.2.2.2 "Available" (by decide) (by decide) (by decide)⟩

/-- C8: `PetName::new` fails with `EmptyName` exactly when the trimmed
input is empty, and otherwise stores the input exactly as supplied
(trimming affects only the check, not the stored value). -/
theorem pet_name_new_spec (s : String) :
    (PetName.new s = .error .Empty ↔ rust_trim s = "") ∧
    (rust_trim s ≠ "" → PetName.new s = .ok ⟨s⟩) := by
  constructor
  · by_cases h : rust_trim s = "" <;> simp [PetName.new, h]
  · intro h; simp [PetName.new, h]

/-- Witness for C8: `" Rex "` is kept with its whitespace, `" "` and `""`
fail. -/
theorem pet_name_new_spec_witness :
    PetName.new " Rex " = .ok ⟨" Rex "⟩ ∧
    PetName.new " " = .error .Empty ∧
    PetName.new "" = .error .Empty :=
  ⟨(pet_name_new_spec " Rex ").2 (by decide),
   (pet_name_new_spec " ").1.mpr (by decide),
   (pet_name_new_spec "").1.mpr (by decide)⟩

/-- C9: the service is a pure pass-through over its repository: for every
repository, state, request and id, `Service::add_pet` returns exactly the
repository's `add_pet` result and `Service::find_pet_by_id` exactly the
repository's `find_pet_by_id` result. -/
theorem service_is_passthrough {σ : Type} (r : PetRepo σ) (st : σ)
    (req : CreatePetRequest) (pid : Int) :
    (Service.new r).add_pet st req = r.add_pet st req ∧
    (Service.new r).find_pet_by_id st pid = r.find_pet_by_id st pid :=
  ⟨rfl, rfl⟩

/-- C1: when a stored pet already has the requested name, `add_pet` fails
with `Duplicate` carrying exactly that name and returns the store
unchanged — no pet, category, photo or tag row is added or modified. -/
theorem add_pet_duplicate_rejected (db : DB) (req : CreatePetRequest)
    (h : ∃ r ∈ db.pets, r.name = req.name) :
    add_pet db req = (.error (.Duplicate req.name), db) := by
  have hdup : (db.pets.any fun row => row.name = req.name) = true := by
    simp only [List.any_eq_true, decide_eq_true_eq]
    exact h
  simp [add_pet, hdup]

/-- Witness for C1: re-adding "doggie" to the fixture store. -/
theorem add_pet_duplicate_rejected_witness :
    add_pet fixture_db ⟨some 1, "doggie", none, [], [], none⟩ =
      (.error (.Duplicate "doggie"), fixture_db) :=
  add_pet_duplicate_rejected fixture_db ⟨some 1, "doggie", none, [], [], none⟩
    (by decide)

/-- C5: an id that no stored pet carries makes `find_pet_by_id` return
`Ok(None)` — not an error — both in the repository adapter and in the
service over it. -/
theorem find_pet_by_id_unassigned (db : DB) (pid : Int)
    (h : ∀ r ∈ db.pets, r.id ≠ pid) :
    find_pet_by_id db pid = .ok none ∧
    (Service.new postgres_repo).find_pet_by_id db pid = .ok none := by
  have hf : db.pets.find? (fun row => row.id = pid) = none := by
    rw [List.find?_eq_none]
    intro r hr
    simpa using h r hr
  constructor <;> simp [Service.find_pet_by_id, Service.new, postgres_repo,
    find_pet_by_id, hf]

/-- Witness for C5 at the fixture store and the never-assigned id 999. -/
theorem find_pet_by_id_unassigned_witness :
    find_pet_by_id fixture_db 999 = .ok none ∧
    (Service.new postgres_repo).find_pet_by_id fixture_db 999 = .ok none :=
  find_pet_by_id_unassigned fixture_db 999 (by decide)

/-- Characterization of a fresh-name `add_pet`: it returns the locally
assembled pet with the generated id, and appends exactly one pet row
carrying the request name, the resolved category id and the stored status
string. -/
theorem add_pet_fresh_char (db : DB) (req : CreatePetRequest)
    (hdup : (db.pets.any fun row => row.name = req.name) = false) :
    (add_pet db req).1 =
      .ok (assemble_pet req (req.id.getD db.next_pet_id)) ∧
    ∃ cid : Option Int,
      (add_pet db req).2.pets = db.pets ++ [⟨req.id.getD db.next_pet_id,
        req.name, cid, (req.status.map Status.to_str).getD "available"⟩] := by
  cases hc : req.category with
  | none =>
      constructor
      · unfold add_pet
        simp only [hdup, Bool.false_eq_true, if_false, hc, insert_pet]
      · refine ⟨none, ?_⟩
        unfold add_pet
        simp only [hdup, Bool.false_eq_true, if_false, hc]
        rw [(add_tags_untouched _ req.tags _).1]
        simp [insert_pet]
  | some c =>
      constructor
      · unfold add_pet
        simp only [hdup, Bool.false_eq_true, if_false, hc, insert_pet,
          (upsert_category_untouched db c).2.2.2.2]
      · refine ⟨some (upsert_category db c).1, ?_⟩
        unfold add_pet
        simp only [hdup, Bool.false_eq_true, if_false, hc]
        rw [(add_tags_untouched _ req.tags _).1]
        simp [insert_pet, (upsert_category_untouched db c).1,
          (upsert_category_untouched db c).2.2.2.2]

/-- C2: a valid request whose name no stored pet carries succeeds; the
returned pet carries the request name, its id is `Some` of the id of the
row the store generated, and its status defaults to `Some(Available)`
when the request carries none. -/
theorem add_pet_fresh_name_succeeds (db : DB) (req : CreatePetRequest)
    (_hname : rust_trim req.name ≠ "") (_hurls : req.photo_urls ≠ [])
    (hfresh : ∀ r ∈ db.pets, r.name ≠ req.name) :
    ∃ (pet : Pet) (db' : DB) (row : PetRow),
      add_pet db req = (.ok pet, db') ∧
      db'.pets = db.pets ++ [row] ∧
      pet.name = req.name ∧
      pet.id = some row.id ∧
      (req.status = none → pet.status = some Status.Available) := by
  have hdup : (db.pets.any fun row => row.name = req.name) = false := by
    simp only [List.any_eq_false, decide_eq_true_eq]
    exact hfresh
  obtain ⟨h1, cid, h2⟩ := add_pet_fresh_char db req hdup
  refine ⟨assemble_pet req (req.id.getD db.next_pet_id), (add_pet db req).2,
    ⟨req.id.getD db.next_pet_id, req.name, cid,
     (req.status.map Status.to_str).getD "available"⟩, ?_, h2, ?_, ?_, ?_⟩
  · rw [← h1]
  · simp [assemble_pet_eq]
  · simp [assemble_pet_eq]
  · intro h
    simp [assemble_pet_eq, h]

/-- Witness for C2 at the empty store and the integration fixture. -/
theorem add_pet_fresh_name_succeeds_witness :
    ∃ (pet : Pet) (db' : DB) (row : PetRow),
      add_pet DB.empty fixture_req = (.ok pet, db') ∧
      db'.pets = DB.empty.pets ++ [row] ∧
      pet.name = fixture_req.name ∧
      pet.id = some row.id ∧
      (fixture_req.status = none → pet.status = some Status.Available) :=
  add_pet_fresh_name_succeeds DB.empty fixture_req (by decide) (by decide)
    (by decide)

/-- C10: read-side status decoding is lenient and total — the three
stored strings decode to their variants, any other stored string decodes
to `Available`, and every pet `find_pet_by_id` returns carries
`status = Some` of an enum value, never `None`. -/
theorem find_status_decoding :
    decode_status "available" = .Available ∧
    decode_status "pending" = .Pending ∧
    decode_status "sold" = .Sold ∧
    (∀ s : String, s ≠ "available" → s ≠ "pending" → s ≠ "sold" →
      decode_status s = .Available) ∧
    (∀ (db : DB) (pid : Int) (p : Pet),
      find_pet_by_id db pid = .ok (some p) → ∃ st, p.status = some st) := by
  refine ⟨by decide, by decide, by decide,
    fun s h1 h2 h3 => by simp [decode_status, h1, h2, h3], ?_⟩
  intro db pid p h
  unfold find_pet_by_id at h
  cases hf : db.pets.find? (fun row => row.id = pid) with
  | none => rw [hf] at h; exact absurd h (by simp)
  | some row =>
      rw [hf] at h
      simp only [Except.ok.injEq, Option.some.injEq] at h
      subst h
      exact ⟨decode_status row.status,
        by simp [add_found_tags_eq, foldl_add_photo_eq, join_category_status,
                 Pet.set_status]⟩

/-! ## Helpers for the round-trip analysis -/

theorem find?_append_left_none {α : Type} (l1 l2 : List α) (p : α → Bool)
    (h : l1.find? p = none) : (l1 ++ l2).find? p = l2.find? p := by
  rw [List.find?_append, h, Option.none_or]

theorem flatten_map_singleton {α β : Type} (f : α → β) (l : List α) :
    (l.map (fun a => [f a])).flatten = l.map f := by
  induction l with
  | nil => rfl
  | cons a l ih => simp only [List.map_cons, List.flatten_cons, ih,
      List.singleton_append]

theorem getD_ne_of_ne (o1 o2 : Option Int) (h1 : o1.isSome) (h2 : o2.isSome)
    (h : o1 ≠ o2) : o1.getD 0 ≠ o2.getD 0 := by
  obtain ⟨a, rfl⟩ := Option.isSome_iff_exists.mp h1
  obtain ⟨b, rfl⟩ := Option.isSome_iff_exists.mp h2
  simpa using h

theorem find?_update_category (l : List CategoryRow) (cid : Int)
    (nm : Option String) (h : (l.any fun r => r.id = cid) = true) :
    (l.map (fun r => if r.id = cid then { r with name := nm } else r)).find?
      (fun r => r.id = cid) = some ⟨cid, nm⟩ := by
  induction l with
  | nil => simp at h
  | cons r l ih =>
      by_cases hr : r.id = cid
      · rw [List.map_cons, if_pos hr, List.find?_cons_of_pos _ (by simp [hr])]
        obtain ⟨rid, rname⟩ := r
        simp only at hr
        subst hr
        rfl
      · have h' : (l.any fun r => r.id = cid) = true := by
          simpa [List.any_cons, hr] using h
        rw [List.map_cons, if_neg hr, List.find?_cons_of_neg _ (by simp [hr])]
        exact ih h'

/-- After the category upsert with an explicitly bound id, the resolved id
is that id and the first category row carrying it holds the bound name. -/
theorem upsert_category_find (db : DB) (c : Category) (ci : Int)
    (hci : c.id = some ci) :
    (upsert_category db c).1 = ci ∧
    (upsert_category db c).2.categories.find? (fun r => r.id = ci) =
      some ⟨ci, c.name⟩ := by
  have hun : upsert_category db c =
      if (db.categories.any fun row => row.id = ci) then
        (ci,
         { db with
            categories := db.categories.map (fun row =>
              if row.id = ci then { row with name := c.name } else row) })
      else
        (ci, { db with categories := db.categories ++ [⟨ci, c.name⟩] }) := by
    unfold upsert_category
    rw [hci]
  by_cases hex : (db.categories.any fun row => row.id = ci) = true
  · rw [hun, if_pos hex]
    exact ⟨rfl, find?_update_category db.categories ci c.name hex⟩
  · rw [hun, if_neg hex]
    refine ⟨rfl, ?_⟩
    rw [find?_append_left_none]
    · rw [List.find?_cons_of_pos _ (by simp)]
    · rw [List.find?_eq_none]
      intro r hr
      have hfalse := List.any_eq_false.mp (Bool.eq_false_iff.mpr hex) r hr
      simpa using hfalse

/-- Running the tag loop over tags that all carry explicit ids and names,
whose names are fresh for the store and pairwise distinct, inserts one tag
row and one linking row per tag, in order, with the request's own ids. -/
theorem add_tags_insert_all (pid : Int) (ts : List Tag) : ∀ db : DB,
    (∀ t ∈ ts, t.id.isSome ∧ t.name.isSome) →
    (∀ t ∈ ts, ∀ r ∈ db.tags, r.name ≠ t.name) →
    ts.Pairwise (fun a b => a.name ≠ b.name) →
    (add_tags db pid ts).tags =
      db.tags ++ ts.map (fun t => (⟨t.id.getD 0, t.name⟩ : TagRow)) ∧
    (add_tags db pid ts).pet_tags =
      db.pet_tags ++ ts.map (fun t => (pid, t.id.getD 0)) := by
  induction ts with
  | nil => intro db _ _ _; constructor <;> simp [add_tags]
  | cons t ts ih =>
      intro db hexp hfresh hdist
      obtain ⟨hti, htn⟩ := hexp t (List.mem_cons_self t ts)
      obtain ⟨ti, hti'⟩ := Option.isSome_iff_exists.mp hti
      obtain ⟨tn, htn'⟩ := Option.isSome_iff_exists.mp htn
      have hfind : db.tags.find? (fun row => row.name = some tn) = none := by
        rw [List.find?_eq_none]
        intro r hr
        simpa [htn'] using hfresh t (List.mem_cons_self t ts) r hr
      have hup : upsert_tag db t =
          (ti,
           { db with
              tags := db.tags ++ [⟨ti, some tn⟩],
              next_tag_id := max db.next_tag_id (ti + 1) }) := by
        unfold upsert_tag
        simp only [htn', hfind, hti', Option.getD_some]
      have hstep : add_tags db pid (t :: ts) =
          add_tags
            { db with
               tags := db.tags ++ [⟨ti, some tn⟩],
               next_tag_id := max db.next_tag_id (ti + 1),
               pet_tags := db.pet_tags ++ [(pid, ti)] } pid ts := by
        conv_lhs => rw [add_tags]
        rw [hup]
      have hpair := List.pairwise_cons.mp hdist
      have hexp' : ∀ u ∈ ts, u.id.isSome ∧ u.name.isSome :=
        fun u hu => hexp u (List.mem_cons_of_mem t hu)
      have hfresh' : ∀ u ∈ ts,
          ∀ r ∈ ({ db with
                    tags := db.tags ++ [⟨ti, some tn⟩],
                    next_tag_id := max db.next_tag_id (ti + 1),
                    pet_tags := db.pet_tags ++ [(pid, ti)] } : DB).tags,
          r.name ≠ u.name := by
        intro u hu r hr
        rcases List.mem_append.mp hr with hold | hnew
        · exact hfresh u (List.mem_cons_of_mem t hu) r hold
        · rcases List.mem_singleton.mp hnew with rfl
          exact htn' ▸ hpair.1 u hu
      obtain ⟨ih1, ih2⟩ := ih _ hexp' hfresh' hpair.2
      rw [hstep]
      constructor
      · rw [ih1]
        simp [hti', htn', List.append_assoc]
      · rw [ih2]
        simp [hti', List.append_assoc]

/-- Running the tag loop over tags with explicit ids and names whose
names are pairwise distinct, when every stored tag row bearing one of the
names already carries that tag's id, writes one linking row per tag with
the request's own id — re-using the stored row on a name hit, inserting a
fresh row otherwise — and every tag row it adds mirrors one of the tags. -/
theorem add_tags_resolve (pid : Int) (ts : List Tag) : ∀ db : DB,
    (∀ t ∈ ts, t.id.isSome ∧ t.name.isSome) →
    (∀ t ∈ ts, ∀ r ∈ db.tags, r.name = t.name → r.id = t.id.getD 0) →
    ts.Pairwise (fun a b => a.name ≠ b.name) →
    (add_tags db pid ts).pet_tags =
      db.pet_tags ++ ts.map (fun t => (pid, t.id.getD 0)) ∧
    ∃ new : List TagRow, (add_tags db pid ts).tags = db.tags ++ new ∧
      ∀ r ∈ new, ∃ t ∈ ts, r = (⟨t.id.getD 0, t.name⟩ : TagRow) := by
  induction ts with
  | nil =>
      intro db _ _ _
      refine ⟨by simp [add_tags], [], by simp [add_tags], by simp⟩
  | cons t ts ih =>
      intro db hexp hres hdist
      obtain ⟨hti, htn⟩ := hexp t (List.mem_cons_self t ts)
      obtain ⟨ti, hti'⟩ := Option.isSome_iff_exists.mp hti
      obtain ⟨tn, htn'⟩ := Option.isSome_iff_exists.mp htn
      have hpair := List.pairwise_cons.mp hdist
      cases hfind : db.tags.find? (fun row => row.name = some tn) with
      | some row =>
          have hrowmem := List.mem_of_find?_eq_some hfind
          have hrowname : row.name = some tn := by
            have := List.find?_some hfind
            simpa using this
          have hrowid : row.id = ti := by
            have := hres t (List.mem_cons_self t ts) row hrowmem
              (by rw [hrowname, htn'])
            simpa [hti'] using this
          have hup : upsert_tag db t = (ti, db) := by
            unfold upsert_tag
            simp only [htn', hfind, hrowid]
          have hstep : add_tags db pid (t :: ts) =
              add_tags { db with pet_tags := db.pet_tags ++ [(pid, ti)] }
                pid ts := by
            conv_lhs => rw [add_tags]
            rw [hup]
          have hres' : ∀ u ∈ ts,
              ∀ r ∈ ({ db with
                        pet_tags := db.pet_tags ++ [(pid, ti)] } : DB).tags,
              r.name = u.name → r.id = u.id.getD 0 :=
            fun u hu r hr => hres u (List.mem_cons_of_mem t hu) r hr
          obtain ⟨ih1, new, ih2, ih3⟩ :=
            ih _ (fun u hu => hexp u (List.mem_cons_of_mem t hu)) hres' hpair.2
          rw [hstep]
          refine ⟨?_, new, by rw [ih2], ?_⟩
          · rw [ih1]
            simp [hti', List.append_assoc]
          · intro r hr
            obtain ⟨u, hu, hru⟩ := ih3 r hr
            exact ⟨u, List.mem_cons_of_mem t hu, hru⟩
      | none =>
          have hup : upsert_tag db t =
              (ti,
               { db with
                  tags := db.tags ++ [⟨ti, some tn⟩],
                  next_tag_id := max db.next_tag_id (ti + 1) }) := by
            unfold upsert_tag
            simp only [htn', hfind, hti', Option.getD_some]
          have hstep : add_tags db pid (t :: ts) =
              add_tags
                { db with
                   tags := db.tags ++ [⟨ti, some tn⟩],
                   next_tag_id := max db.next_tag_id (ti + 1),
                   pet_tags := db.pet_tags ++ [(pid, ti)] } pid ts := by
            conv_lhs => rw [add_tags]
            rw [hup]
          have hres' : ∀ u ∈ ts,
              ∀ r ∈ ({ db with
                        tags := db.tags ++ [⟨ti, some tn⟩],
                        next_tag_id := max db.next_tag_id (ti + 1),
                        pet_tags := db.pet_tags ++ [(pid, ti)] } : DB).tags,
              r.name = u.name → r.id = u.id.getD 0 := by
            intro u hu r hr hrname
            rcases List.mem_append.mp hr with hold | hnew
            · exact hres u (List.mem_cons_of_mem t hu) r hold hrname
            · rcases List.mem_singleton.mp hnew with rfl
              exact absurd hrname (htn' ▸ hpair.1 u hu)
          obtain ⟨ih1, new, ih2, ih3⟩ :=
            ih _ (fun u hu => hexp u (List.mem_cons_of_mem t hu)) hres' hpair.2
          rw [hstep]
          refine ⟨?_, ⟨ti, some tn⟩ :: new, ?_, ?_⟩
          · rw [ih1]
            simp [hti', List.append_assoc]
          · rw [ih2]
            simp [List.append_assoc]
          · intro r hr
            rcases List.mem_cons.mp hr with rfl | hmem
            · exact ⟨t, List.mem_cons_self t ts, by simp [hti', htn']⟩
            · obtain ⟨u, hu, hru⟩ := ih3 r hmem
              exact ⟨u, List.mem_cons_of_mem t hu, hru⟩

theorem filter_tag_rows (ts : List Tag) (t : Tag) (ht : t ∈ ts)
    (hexp : ∀ u ∈ ts, u.id.isSome)
    (hdist : ts.Pairwise fun a b => a.id ≠ b.id) :
    (ts.map (fun u => (⟨u.id.getD 0, u.name⟩ : TagRow))).filter
      (fun r => r.id = t.id.getD 0) = [⟨t.id.getD 0, t.name⟩] := by
  induction ts with
  | nil => cases ht
  | cons u ts ih =>
      have hpair := List.pairwise_cons.mp hdist
      rcases List.mem_cons.mp ht with rfl | hmem
      · rw [List.map_cons, List.filter_cons_of_pos (by simp)]
        have hrest : (ts.map (fun u => (⟨u.id.getD 0, u.name⟩ : TagRow))).filter
            (fun r => r.id = t.id.getD 0) = [] := by
          rw [List.filter_eq_nil_iff]
          intro r hr
          obtain ⟨v, hv, rfl⟩ := List.mem_map.mp hr
          simp only [decide_eq_true_eq]
          exact getD_ne_of_ne v.id t.id (hexp v (List.mem_cons_of_mem t hv))
            (hexp t (List.mem_cons_self t ts)) (Ne.symm (hpair.1 v hv))
        rw [hrest]
      · rw [List.map_cons, List.filter_cons_of_neg]
        · exact ih hmem (fun v hv => hexp v (List.mem_cons_of_mem u hv)) hpair.2
        · simp only [decide_eq_true_eq]
          exact getD_ne_of_ne u.id t.id (hexp u (List.mem_cons_self u ts))
            (hexp t (List.mem_cons_of_mem u hmem)) (hpair.1 t hmem)

theorem filterMap_tag_rows (ts : List Tag)
    (hexp : ∀ u ∈ ts, u.id.isSome ∧ u.name.isSome) :
    (ts.map (fun u => (⟨u.id.getD 0, u.name⟩ : TagRow))).filterMap
      (fun r => r.name.map (Tag.with_values r.id)) = ts := by
  induction ts with
  | nil => rfl
  | cons u ts ih =>
      obtain ⟨hui, hun⟩ := hexp u (List.mem_cons_self u ts)
      obtain ⟨uid, uname⟩ := u
      obtain ⟨a, ha⟩ := Option.isSome_iff_exists.mp hui
      obtain ⟨n, hn⟩ := Option.isSome_iff_exists.mp hun
      simp only at ha hn
      subst ha
      subst hn
      rw [List.map_cons]
      rw [show (⟨(⟨some a, some n⟩ : Tag).id.getD 0, (⟨some a, some n⟩ : Tag).name⟩ :
        TagRow) = ⟨a, some n⟩ from rfl]
      simp only [List.filterMap_cons, Option.map_some', Tag.with_values]
      rw [ih (fun v hv => hexp v (List.mem_cons_of_mem _ hv))]

theorem map_pair_snd {α β : Type} (b : β) (l : List α) :
    ((l.map fun a => (b, a)).map fun p => p.2) = l := by
  induction l with
  | nil => rfl
  | cons a l ih => simp only [List.map_cons, ih]

/-- Full table characterization of a fresh-name `add_pet` whose category
(if any) carries an explicit id and whose tags carry explicit ids and
names that are fresh for the store and pairwise distinct. -/
theorem add_pet_tables (db : DB) (req : CreatePetRequest)
    (hdup : (db.pets.any fun row => row.name = req.name) = false)
    (hcat : ∀ c ∈ req.category, c.id.isSome)
    (hexp : ∀ t ∈ req.tags, t.id.isSome ∧ t.name.isSome)
    (hfreshn : ∀ t ∈ req.tags, ∀ r ∈ db.tags, r.name ≠ t.name)
    (hdistn : req.tags.Pairwise fun a b => a.name ≠ b.name) :
    (add_pet db req).1 =
      .ok (assemble_pet req (req.id.getD db.next_pet_id)) ∧
    (add_pet db req).2.pets = db.pets ++
      [⟨req.id.getD db.next_pet_id, req.name,
        req.category.bind Category.id,
        (req.status.map Status.to_str).getD "available"⟩] ∧
    (add_pet db req).2.pet_photos = db.pet_photos ++
      req.photo_urls.map (fun u => (req.id.getD db.next_pet_id, u)) ∧
    (add_pet db req).2.tags = db.tags ++
      req.tags.map (fun t => (⟨t.id.getD 0, t.name⟩ : TagRow)) ∧
    (add_pet db req).2.pet_tags = db.pet_tags ++
      req.tags.map (fun t => (req.id.getD db.next_pet_id, t.id.getD 0)) ∧
    (∀ c, req.category = some c → ∀ ci, c.id = some ci →
      (add_pet db req).2.categories.find? (fun r => r.id = ci) =
        some ⟨ci, c.name⟩) ∧
    (req.category = none → (add_pet db req).2.categories = db.categories) := by
  refine ⟨(add_pet_fresh_char db req hdup).1, ?_⟩
  cases hc : req.category with
  | none =>
      have h2 : (add_pet db req).2 =
          add_tags
            { db with
               pets := db.pets ++ [⟨req.id.getD db.next_pet_id, req.name, none,
                 (req.status.map Status.to_str).getD "available"⟩],
               next_pet_id := max db.next_pet_id (req.id.getD db.next_pet_id + 1),
               pet_photos := db.pet_photos ++
                 req.photo_urls.map (fun u => (req.id.getD db.next_pet_id, u)) }
            (req.id.getD db.next_pet_id) req.tags := by
        unfold add_pet
        simp only [hdup, Bool.false_eq_true, if_false, hc, insert_pet]
      obtain ⟨htags, hlinks⟩ :=
        add_tags_insert_all (req.id.getD db.next_pet_id) req.tags
          { db with
             pets := db.pets ++ [⟨req.id.getD db.next_pet_id, req.name, none,
               (req.status.map Status.to_str).getD "available"⟩],
             next_pet_id := max db.next_pet_id (req.id.getD db.next_pet_id + 1),
             pet_photos := db.pet_photos ++
               req.photo_urls.map (fun u => (req.id.getD db.next_pet_id, u)) }
          hexp hfreshn hdistn
      have hu := add_tags_untouched (req.id.getD db.next_pet_id) req.tags
        { db with
           pets := db.pets ++ [⟨req.id.getD db.next_pet_id, req.name, none,
             (req.status.map Status.to_str).getD "available"⟩],
           next_pet_id := max db.next_pet_id (req.id.getD db.next_pet_id + 1),
           pet_photos := db.pet_photos ++
             req.photo_urls.map (fun u => (req.id.getD db.next_pet_id, u)) }
      refine ⟨?_, ?_, ?_, ?_, ?_, ?_⟩
      · rw [h2, hu.1]
        simp
      · rw [h2, hu.2.2]
      · rw [h2, htags]
      · rw [h2, hlinks]
      · intro c hcc
        simp at hcc
      · intro _
        rw [h2, hu.2.1]
  | some c =>
      obtain ⟨ci, hci⟩ := Option.isSome_iff_exists.mp (hcat c (by rw [hc]; rfl))
      have hcu := upsert_category_untouched db c
      have hcf := upsert_category_find db c ci hci
      have h2 : (add_pet db req).2 =
          add_tags
            { (upsert_category db c).2 with
               pets := (upsert_category db c).2.pets ++
                 [⟨req.id.getD (upsert_category db c).2.next_pet_id, req.name,
                   some (upsert_category db c).1,
                   (req.status.map Status.to_str).getD "available"⟩],
               next_pet_id := max (upsert_category db c).2.next_pet_id
                 (req.id.getD (upsert_category db c).2.next_pet_id + 1),
               pet_photos := (upsert_category db c).2.pet_photos ++
                 req.photo_urls.map (fun u =>
                   (req.id.getD (upsert_category db c).2.next_pet_id, u)) }
            (req.id.getD (upsert_category db c).2.next_pet_id) req.tags := by
        unfold add_pet
        simp only [hdup, Bool.false_eq_true, if_false, hc, insert_pet]
      rw [hcu.2.2.2.2, hcf.1] at h2
      have hfreshn' : ∀ t ∈ req.tags,
          ∀ r ∈ ({ (upsert_category db c).2 with
                    pets := (upsert_category db c).2.pets ++
                      [⟨req.id.getD db.next_pet_id, req.name, some ci,
                        (req.status.map Status.to_str).getD "available"⟩],
                    next_pet_id := max db.next_pet_id
                      (req.id.getD db.next_pet_id + 1),
                    pet_photos := (upsert_category db c).2.pet_photos ++
                      req.photo_urls.map (fun u =>
                        (req.id.getD db.next_pet_id, u)) } : DB).tags,
          r.name ≠ t.name := by
        intro t ht r hr
        rw [show ({ (upsert_category db c).2 with
                    pets := (upsert_category db c).2.pets ++
                      [⟨req.id.getD db.next_pet_id, req.name, some ci,
                        (req.status.map Status.to_str).getD "available"⟩],
                    next_pet_id := max db.next_pet_id
                      (req.id.getD db.next_pet_id + 1),
                    pet_photos := (upsert_category db c).2.pet_photos ++
                      req.photo_urls.map (fun u =>
                        (req.id.getD db.next_pet_id, u)) } : DB).tags =
            db.tags from hcu.2.1] at hr
        exact hfreshn t ht r hr
      obtain ⟨htags, hlinks⟩ :=
        add_tags_insert_all (req.id.getD db.next_pet_id) req.tags _
          hexp hfreshn' hdistn
      have hu := add_tags_untouched (req.id.getD db.next_pet_id) req.tags
        { (upsert_category db c).2 with
           pets := (upsert_category db c).2.pets ++
             [⟨req.id.getD db.next_pet_id, req.name, some ci,
               (req.status.map Status.to_str).getD "available"⟩],
           next_pet_id := max db.next_pet_id (req.id.getD db.next_pet_id + 1),
           pet_photos := (upsert_category db c).2.pet_photos ++
             req.photo_urls.map (fun u => (req.id.getD db.next_pet_id, u)) }
      refine ⟨?_, ?_, ?_, ?_, ?_, ?_⟩
      · rw [h2, hu.1]
        simp [hcu.1, hci]
      · rw [h2, hu.2.2]
        simp [hcu.2.2.1]
      · rw [h2, htags]
        simp [hcu.2.1]
      · rw [h2, hlinks]
        simp [hcu.2.2.2.1]
      · intro c' hcc ci' hci'
        injection hcc with hcc
        subst hcc
        rw [hci] at hci'
        injection hci' with hci'
        subst hci'
        rw [h2, hu.2.1]
        simpa using hcf.2
      · intro hnone
        simp at hnone

/-- Table characterization of a fresh-name `add_pet` under the resolution
conditions of the amended mirror claim: explicit category id (if any),
explicit tag ids and names, names pairwise distinct, and every stored tag
row bearing a requested name already carrying that request's id. The link
rows carry the request's own tag ids and every added tag row mirrors a
request tag. -/
theorem add_pet_tables_resolve (db : DB) (req : CreatePetRequest)
    (hdup : (db.pets.any fun row => row.name = req.name) = false)
    (hcat : ∀ c ∈ req.category, c.id.isSome)
    (hexp : ∀ t ∈ req.tags, t.id.isSome ∧ t.name.isSome)
    (hres : ∀ t ∈ req.tags, ∀ r ∈ db.tags, r.name = t.name → r.id = t.id.getD 0)
    (hdistn : req.tags.Pairwise fun a b => a.name ≠ b.name) :
    (add_pet db req).1 =
      .ok (assemble_pet req (req.id.getD db.next_pet_id)) ∧
    (add_pet db req).2.pets = db.pets ++
      [⟨req.id.getD db.next_pet_id, req.name,
        req.category.bind Category.id,
        (req.status.map Status.to_str).getD "available"⟩] ∧
    (add_pet db req).2.pet_photos = db.pet_photos ++
      req.photo_urls.map (fun u => (req.id.getD db.next_pet_id, u)) ∧
    (add_pet db req).2.pet_tags = db.pet_tags ++
      req.tags.map (fun t => (req.id.getD db.next_pet_id, t.id.getD 0)) ∧
    (∃ new : List TagRow, (add_pet db req).2.tags = db.tags ++ new ∧
      ∀ r ∈ new, ∃ t ∈ req.tags, r = (⟨t.id.getD 0, t.name⟩ : TagRow)) := by
  refine ⟨(add_pet_fresh_char db req hdup).1, ?_⟩
  cases hc : req.category with
  | none =>
      have h2 : (add_pet db req).2 =
          add_tags
            { db with
               pets := db.pets ++ [⟨req.id.getD db.next_pet_id, req.name, none,
                 (req.status.map Status.to_str).getD "available"⟩],
               next_pet_id := max db.next_pet_id (req.id.getD db.next_pet_id + 1),
               pet_photos := db.pet_photos ++
                 req.photo_urls.map (fun u => (req.id.getD db.next_pet_id, u)) }
            (req.id.getD db.next_pet_id) req.tags := by
        unfold add_pet
        simp only [hdup, Bool.false_eq_true, if_false, hc, insert_pet]
      obtain ⟨hlinks, new, htags, hnew⟩ :=
        add_tags_resolve (req.id.getD db.next_pet_id) req.tags
          { db with
             pets := db.pets ++ [⟨req.id.getD db.next_pet_id, req.name, none,
               (req.status.map Status.to_str).getD "available"⟩],
             next_pet_id := max db.next_pet_id (req.id.getD db.next_pet_id + 1),
             pet_photos := db.pet_photos ++
               req.photo_urls.map (fun u => (req.id.getD db.next_pet_id, u)) }
          hexp hres hdistn
      have hu := add_tags_untouched (req.id.getD db.next_pet_id) req.tags
        { db with
           pets := db.pets ++ [⟨req.id.getD db.next_pet_id, req.name, none,
             (req.status.map Status.to_str).getD "available"⟩],
           next_pet_id := max db.next_pet_id (req.id.getD db.next_pet_id + 1),
           pet_photos := db.pet_photos ++
             req.photo_urls.map (fun u => (req.id.getD db.next_pet_id, u)) }
      refine ⟨?_, ?_, ?_, ?_⟩
      · rw [h2, hu.1]
        simp
      · rw [h2, hu.2.2]
      · rw [h2, hlinks]
      · exact ⟨new, by rw [h2, htags], hnew⟩
  | some c =>
      obtain ⟨ci, hci⟩ := Option.isSome_iff_exists.mp (hcat c (by rw [hc]; rfl))
      have hcu := upsert_category_untouched db c
      have hcf := upsert_category_find db c ci hci
      have h2 : (add_pet db req).2 =
          add_tags
            { (upsert_category db c).2 with
               pets := (upsert_category db c).2.pets ++
                 [⟨req.id.getD (upsert_category db c).2.next_pet_id, req.name,
                   some (upsert_category db c).1,
                   (req.status.map Status.to_str).getD "available"⟩],
               next_pet_id := max (upsert_category db c).2.next_pet_id
                 (req.id.getD (upsert_category db c).2.next_pet_id + 1),
               pet_photos := (upsert_category db c).2.pet_photos ++
                 req.photo_urls.map (fun u =>
                   (req.id.getD (upsert_category db c).2.next_pet_id, u)) }
            (req.id.getD (upsert_category db c).2.next_pet_id) req.tags := by
        unfold add_pet
        simp only [hdup, Bool.false_eq_true, if_false, hc, insert_pet]
      rw [hcu.2.2.2.2, hcf.1] at h2
      have htagsU : ({ (upsert_category db c).2 with
                    pets := (upsert_category db c).2.pets ++
                      [⟨req.id.getD db.next_pet_id, req.name, some ci,
                        (req.status.map Status.to_str).getD "available"⟩],
                    next_pet_id := max db.next_pet_id
                      (req.id.getD db.next_pet_id + 1),
                    pet_photos := (upsert_category db c).2.pet_photos ++
                      req.photo_urls.map (fun u =>
                        (req.id.getD db.next_pet_id, u)) } : DB).tags =
          db.tags := hcu.2.1
      have hres' : ∀ t ∈ req.tags,
          ∀ r ∈ ({ (upsert_category db c).2 with
                    pets := (upsert_category db c).2.pets ++
                      [⟨req.id.getD db.next_pet_id, req.name, some ci,
                        (req.status.map Status.to_str).getD "available"⟩],
                    next_pet_id := max db.next_pet_id
                      (req.id.getD db.next_pet_id + 1),
                    pet_photos := (upsert_category db c).2.pet_photos ++
                      req.photo_urls.map (fun u =>
                        (req.id.getD db.next_pet_id, u)) } : DB).tags,
          r.name = t.name → r.id = t.id.getD 0 := by
        intro t ht r hr hrname
        rw [htagsU] at hr
        exact hres t ht r hr hrname
      obtain ⟨hlinks, new, htags, hnew⟩ :=
        add_tags_resolve (req.id.getD db.next_pet_id) req.tags _
          hexp hres' hdistn
      have hu := add_tags_untouched (req.id.getD db.next_pet_id) req.tags
        { (upsert_category db c).2 with
           pets := (upsert_category db c).2.pets ++
             [⟨req.id.getD db.next_pet_id, req.name, some ci,
               (req.status.map Status.to_str).getD "available"⟩],
           next_pet_id := max db.next_pet_id (req.id.getD db.next_pet_id + 1),
           pet_photos := (upsert_category db c).2.pet_photos ++
             req.photo_urls.map (fun u => (req.id.getD db.next_pet_id, u)) }
      refine ⟨?_, ?_, ?_, ?_⟩
      · rw [h2, hu.1]
        simp [hcu.1, hci]
      · rw [h2, hu.2.2]
        simp [hcu.2.2.1]
      · rw [h2, hlinks]
        simp [hcu.2.2.2.1]
      · refine ⟨new, ?_, hnew⟩
        rw [h2, htags, htagsU]

theorem decode_status_round (o : Option Status) :
    decode_status ((o.map Status.to_str).getD "available") =
      o.getD Status.Available := by
  cases o with
  | none => decide
  | some s => cases s <;> decide

theorem stored_status_eq (o : Option Status) :
    (o.map Status.to_str).getD "available" =
      (o.getD Status.Available).to_str := by
  cases o <;> rfl

/-- Reading back a pet created by `add_pet` returns exactly the locally
assembled pet, provided the pet id, its photo rows and its link rows are
fresh, the category (if any) carries explicit id and name, and the tags
carry explicit, store-fresh, pairwise distinct ids and names. -/
theorem find_after_add (db : DB) (req : CreatePetRequest)
    (hname : ∀ r ∈ db.pets, r.name ≠ req.name)
    (hpid : ∀ r ∈ db.pets, r.id ≠ req.id.getD db.next_pet_id)
    (hphoto : ∀ pr ∈ db.pet_photos, pr.1 ≠ req.id.getD db.next_pet_id)
    (hlink : ∀ pt ∈ db.pet_tags, pt.1 ≠ req.id.getD db.next_pet_id)
    (hcat : ∀ c ∈ req.category, c.id.isSome ∧ c.name.isSome)
    (hexp : ∀ t ∈ req.tags, t.id.isSome ∧ t.name.isSome)
    (hfr : ∀ t ∈ req.tags, ∀ r ∈ db.tags, r.name ≠ t.name ∧ some r.id ≠ t.id)
    (hdist : req.tags.Pairwise fun a b => a.name ≠ b.name ∧ a.id ≠ b.id) :
    find_pet_by_id (add_pet db req).2 (req.id.getD db.next_pet_id) =
      .ok (some (assemble_pet req (req.id.getD db.next_pet_id))) := by
  have hdup : (db.pets.any fun row => row.name = req.name) = false := by
    simp only [List.any_eq_false, decide_eq_true_eq]
    exact hname
  obtain ⟨h1, hpets, hphotos, htags, hlinks, hcatfind, hcatnone⟩ :=
    add_pet_tables db req hdup (fun c hc => (hcat c hc).1) hexp
      (fun t ht r hr => (hfr t ht r hr).1) (hdist.imp fun h => h.1)
  have hrow : (add_pet db req).2.pets.find?
      (fun row => row.id = req.id.getD db.next_pet_id) =
      some ⟨req.id.getD db.next_pet_id, req.name, req.category.bind Category.id,
        (req.status.map Status.to_str).getD "available"⟩ := by
    rw [hpets, find?_append_left_none, List.find?_cons_of_pos _ (by simp)]
    rw [List.find?_eq_none]
    intro r hr
    simpa using hpid r hr
  have hphotorows : (((add_pet db req).2.pet_photos.filter
      (fun pr => pr.1 = req.id.getD db.next_pet_id)).map (fun pr => pr.2)) =
      req.photo_urls := by
    have hold : db.pet_photos.filter
        (fun pr => pr.1 = req.id.getD db.next_pet_id) = [] := by
      rw [List.filter_eq_nil_iff]
      intro pr hpr
      simpa using hphoto pr hpr
    have hnew : ((req.photo_urls.map
        (fun u => (req.id.getD db.next_pet_id, u))).filter
        (fun pr => pr.1 = req.id.getD db.next_pet_id)) =
        req.photo_urls.map (fun u => (req.id.getD db.next_pet_id, u)) := by
      rw [List.filter_eq_self]
      intro pr hpr
      obtain ⟨u, hu, rfl⟩ := List.mem_map.mp hpr
      simp
    rw [hphotos, List.filter_append, hold, hnew, List.nil_append, map_pair_snd]
  have hsingle : ∀ t ∈ req.tags,
      (add_pet db req).2.tags.filter (fun r => r.id = t.id.getD 0) =
        [⟨t.id.getD 0, t.name⟩] := by
    intro t ht
    have hold2 : db.tags.filter (fun r => r.id = t.id.getD 0) = [] := by
      rw [List.filter_eq_nil_iff]
      intro r hr
      obtain ⟨ti, hti⟩ := Option.isSome_iff_exists.mp (hexp t ht).1
      simp only [decide_eq_true_eq, hti, Option.getD_some]
      intro heq
      exact (hfr t ht r hr).2 (by rw [heq, hti])
    rw [htags, List.filter_append, hold2, List.nil_append]
    exact filter_tag_rows req.tags t ht (fun u hu => (hexp u hu).1)
      (hdist.imp fun h => h.2)
  have htagrows : pet_tag_rows (add_pet db req).2 (req.id.getD db.next_pet_id) =
      req.tags.map (fun t => (⟨t.id.getD 0, t.name⟩ : TagRow)) := by
    unfold pet_tag_rows
    have hold : db.pet_tags.filter
        (fun pt => pt.1 = req.id.getD db.next_pet_id) = [] := by
      rw [List.filter_eq_nil_iff]
      intro pt hpt
      simpa using hlink pt hpt
    have hnew : ((req.tags.map
        (fun t => (req.id.getD db.next_pet_id, t.id.getD 0))).filter
        (fun pt => pt.1 = req.id.getD db.next_pet_id)) =
        req.tags.map (fun t => (req.id.getD db.next_pet_id, t.id.getD 0)) := by
      rw [List.filter_eq_self]
      intro pt hpt
      obtain ⟨t, ht, rfl⟩ := List.mem_map.mp hpt
      simp
    rw [hlinks, List.filter_append, hold, hnew, List.nil_append, List.map_map]
    have hcomp : req.tags.map ((fun pt => (add_pet db req).2.tags.filter
        (fun t => t.id = pt.2)) ∘ (fun t => (req.id.getD db.next_pet_id,
          t.id.getD 0))) =
        req.tags.map (fun t => [(⟨t.id.getD 0, t.name⟩ : TagRow)]) := by
      apply List.map_congr_left
      intro t ht
      exact hsingle t ht
    rw [hcomp]
    exact flatten_map_singleton (fun t => (⟨t.id.getD 0, t.name⟩ : TagRow))
      req.tags
  unfold find_pet_by_id
  simp only [hrow]
  rw [hphotorows, htagrows]
  rw [add_found_tags_eq, foldl_add_photo_eq, filterMap_tag_rows req.tags hexp]
  rw [assemble_pet_eq]
  cases hc : req.category with
  | none =>
      simp [join_category, Pet.set_status, Pet.new, decode_status_round]
  | some c =>
      obtain ⟨hcisome, hcnsome⟩ := hcat c (by rw [hc]; rfl)
      obtain ⟨cio, cno⟩ := c
      obtain ⟨ci, hci⟩ := Option.isSome_iff_exists.mp hcisome
      obtain ⟨cn, hcn⟩ := Option.isSome_iff_exists.mp hcnsome
      simp only at hci hcn
      subst hci
      subst hcn
      have hfind := hcatfind ⟨some ci, some cn⟩ hc ci rfl
      simp [join_category, hfind, Pet.set_status, Pet.set_category, Pet.new,
        Category.with_values, decode_status_round]

/-- Preconditions under which a created pet reads back exactly as
created: fresh request name and pet id, no stray photo or link rows under
that id, a category (if any) with explicit id and name, and tags with
explicit ids and names that are fresh for the store and pairwise
distinct. -/
def round_trip_safe (db : DB) (req : CreatePetRequest) : Prop :=
  (∀ r ∈ db.pets, r.name ≠ req.name) ∧
  (∀ r ∈ db.pets, r.id ≠ req.id.getD db.next_pet_id) ∧
  (∀ pr ∈ db.pet_photos, pr.1 ≠ req.id.getD db.next_pet_id) ∧
  (∀ pt ∈ db.pet_tags, pt.1 ≠ req.id.getD db.next_pet_id) ∧
  (∀ c ∈ req.category, c.id.isSome ∧ c.name.isSome) ∧
  (∀ t ∈ req.tags, t.id.isSome ∧ t.name.isSome) ∧
  (∀ t ∈ req.tags, ∀ r ∈ db.tags, r.name ≠ t.name ∧ some r.id ≠ t.id) ∧
  req.tags.Pairwise (fun a b => a.name ≠ b.name ∧ a.id ≠ b.id)

/-- The store after creating pet "a" with tag `(1, "f")`: the tags table
holds `("f", id 1)`. -/
def cex_req_a : CreatePetRequest :=
  ⟨some 1, "a", none, [], [Tag.with_values 1 "f"], some Status.Available⟩

/-- Store state reached by one successful `add_pet` of `cex_req_a`. -/
def cex_db : DB := (add_pet DB.empty cex_req_a).2

/-- A second request whose tag carries the already-stored name "f" under
the different explicit id 2. -/
def cex_req_b : CreatePetRequest :=
  ⟨some 2, "b", none, [], [Tag.with_values 2 "f"], some Status.Available⟩

/-- A third request whose tag `(1, "g")` carries a name absent from the
store but the already-stored tag id 1. -/
def cex_req_e : CreatePetRequest :=
  ⟨some 5, "e", none, [], [Tag.with_values 1 "g"], some Status.Available⟩

/-- C3 counterexample, two failure modes over the store holding tag row
`(1, "f")`. First, pet "b" is created successfully supplying tag
`(2, "f")`, but reading it back yields the tag `(1, "f")` — the name-keyed
tag upsert resolved the pre-existing id 1 — so the read-back tag set does
not equal the supplied one. Second, pet "e" is created successfully
supplying tag `(1, "g")` whose name is fresh but whose id collides with
the stored row: the read-back join on tag id 1 returns the stored tag
`(1, "f")` as well, again an unequal tag set. -/
theorem round_trip_tag_counterexample :
    ((add_pet cex_db cex_req_b).1 =
      .ok ⟨some 2, "b", none, [], [Tag.with_values 2 "f"],
        some Status.Available⟩ ∧
    find_pet_by_id (add_pet cex_db cex_req_b).2 2 =
      .ok (some ⟨some 2, "b", none, [], [Tag.with_values 1 "f"],
        some Status.Available⟩) ∧
    Tag.with_values 2 "f" ∈ cex_req_b.tags ∧
    Tag.with_values 2 "f" ∉ ([Tag.with_values 1 "f"] : List Tag)) ∧
    ((add_pet cex_db cex_req_e).1 =
      .ok ⟨some 5, "e", none, [], [Tag.with_values 1 "g"],
        some Status.Available⟩ ∧
    find_pet_by_id (add_pet cex_db cex_req_e).2 5 =
      .ok (some ⟨some 5, "e", none, [],
        [Tag.with_values 1 "f", Tag.with_values 1 "g"],
        some Status.Available⟩) ∧
    Tag.with_values 1 "f" ∉ cex_req_e.tags) :=
  ⟨⟨by decide, by decide, by decide, by decide⟩,
   ⟨by decide, by decide, by decide⟩⟩

/-- C3 (amended): under `round_trip_safe` — the request's name carried by
no stored pet row; the pet id (explicit, or the store's next id) carried
by no stored pet, photo or link row; the category (if any) with explicit
id and name; every tag with explicit id and name, the names and the ids
each pairwise distinct within the request and absent from every stored tag
row — a created pet reads back as `Some` of exactly the pet returned at
creation: same name, same category, the photo URLs as the identical
sequence, the tags as an equal set (here even the same list) and the same
status, which is the request status defaulted to `Available`. Both tag
freshness conditions are forced by the two failure modes shown above. -/
theorem add_pet_find_round_trip (db : DB) (req : CreatePetRequest)
    (h : round_trip_safe db req) :
    ∃ (pet : Pet) (db' : DB),
      add_pet db req = (.ok pet, db') ∧
      find_pet_by_id db' (req.id.getD db.next_pet_id) = .ok (some pet) ∧
      pet.name = req.name ∧
      pet.category = req.category ∧
      pet.photo_urls = req.photo_urls ∧
      (∀ t : Tag, t ∈ pet.tags ↔ t ∈ req.tags) ∧
      pet.status = some (req.status.getD Status.Available) := by
  obtain ⟨hname, hpid, hphoto, hlink, hcat, hexp, hfr, hdist⟩ := h
  have hdup : (db.pets.any fun row => row.name = req.name) = false := by
    simp only [List.any_eq_false, decide_eq_true_eq]
    exact hname
  have hfind := find_after_add db req hname hpid hphoto hlink hcat hexp hfr hdist
  have h1 := (add_pet_fresh_char db req hdup).1
  refine ⟨assemble_pet req (req.id.getD db.next_pet_id), (add_pet db req).2,
    ?_, hfind, ?_, ?_, ?_, ?_, ?_⟩
  · rw [← h1]
  · simp [assemble_pet_eq]
  · simp [assemble_pet_eq]
  · simp [assemble_pet_eq]
  · intro t
    simp [assemble_pet_eq]
  · simp [assemble_pet_eq]

/-- Witness for the amended C3 at the empty store and the integration
fixture request. -/
theorem add_pet_find_round_trip_witness :
    ∃ (pet : Pet) (db' : DB),
      add_pet DB.empty fixture_req = (.ok pet, db') ∧
      find_pet_by_id db' (fixture_req.id.getD DB.empty.next_pet_id) =
        .ok (some pet) ∧
      pet.name = fixture_req.name ∧
      pet.category = fixture_req.category ∧
      pet.photo_urls = fixture_req.photo_urls ∧
      (∀ t : Tag, t ∈ pet.tags ↔ t ∈ fixture_req.tags) ∧
      pet.status = some (fixture_req.status.getD Status.Available) :=
  add_pet_find_round_trip DB.empty fixture_req
    (by unfold round_trip_safe; decide)

/-- The store after creating pet "c" with tag `(7, "g")`. -/
def cexm_req_a : CreatePetRequest :=
  ⟨some 3, "c", none, [], [Tag.with_values 7 "g"], some Status.Available⟩

/-- Store state reached by one successful `add_pet` of `cexm_req_a`. -/
def cexm_db : DB := (add_pet DB.empty cexm_req_a).2

/-- A second request whose tag carries the stored name "g" under the
different explicit id 9. -/
def cexm_req_b : CreatePetRequest :=
  ⟨some 4, "d", none, [], [Tag.with_values 9 "g"], some Status.Available⟩

/-- C4 counterexample: creating pet "d" succeeds and writes the link row
`(4, 7)` with the id 7 resolved by the name-keyed tag upsert, but the
returned pet's tags carry only the request's id 9 — the resolved tag id is
not mirrored into the returned value. -/
theorem write_mirror_tag_counterexample :
    (add_pet cexm_db cexm_req_b).1 =
      .ok ⟨some 4, "d", none, [], [Tag.with_values 9 "g"],
        some Status.Available⟩ ∧
    (add_pet cexm_db cexm_req_b).2.pet_tags = [(3, 7), (4, 7)] ∧
    (∀ t ∈ (⟨some 4, "d", none, [], [Tag.with_values 9 "g"],
        some Status.Available⟩ : Pet).tags, t.id ≠ some 7) :=
  ⟨by decide, by decide, by decide⟩

/-- C4 (amended): on success the returned pet is assembled locally from
the request plus the generated id, and every field written by the
category-upsert, pet-insert, photo-insert and tag-upsert steps is
mirrored in it provided the upserts resolve to the ids the request
carries: the category id is explicit, each tag carries an explicit id and
name, the tag names are pairwise distinct within the request, and every
stored tag row bearing a requested tag's name already carries that tag's
id — covering both a fresh tag name and the re-use of an identical
existing tag. The link rows carry exactly the returned pet's tag ids and
every tag row the call adds mirrors one of the returned pet's tags. -/
theorem add_pet_write_mirror (db : DB) (req : CreatePetRequest)
    (hname : ∀ r ∈ db.pets, r.name ≠ req.name)
    (hcat : ∀ c ∈ req.category, c.id.isSome)
    (hexp : ∀ t ∈ req.tags, t.id.isSome ∧ t.name.isSome)
    (hres : ∀ t ∈ req.tags, ∀ r ∈ db.tags, r.name = t.name → r.id = t.id.getD 0)
    (hdistn : req.tags.Pairwise fun a b => a.name ≠ b.name) :
    ∃ (pet : Pet) (db' : DB),
      add_pet db req = (.ok pet, db') ∧
      pet = assemble_pet req (req.id.getD db.next_pet_id) ∧
      pet.id = some (req.id.getD db.next_pet_id) ∧
      db'.pets = db.pets ++ [⟨req.id.getD db.next_pet_id, pet.name,
        pet.category.bind Category.id,
        (pet.status.getD Status.Available).to_str⟩] ∧
      db'.pet_photos = db.pet_photos ++
        pet.photo_urls.map (fun u => (req.id.getD db.next_pet_id, u)) ∧
      db'.pet_tags = db.pet_tags ++
        pet.tags.map (fun t => (req.id.getD db.next_pet_id, t.id.getD 0)) ∧
      (∃ new : List TagRow, db'.tags = db.tags ++ new ∧
        ∀ r ∈ new, ∃ t ∈ pet.tags, r = (⟨t.id.getD 0, t.name⟩ : TagRow)) := by
  have hdup : (db.pets.any fun row => row.name = req.name) = false := by
    simp only [List.any_eq_false, decide_eq_true_eq]
    exact hname
  obtain ⟨h1, hpets, hphotos, hlinks, new, htags, hnew⟩ :=
    add_pet_tables_resolve db req hdup hcat hexp hres hdistn
  refine ⟨assemble_pet req (req.id.getD db.next_pet_id), (add_pet db req).2,
    ?_, rfl, ?_, ?_, ?_, ?_, ?_⟩
  · rw [← h1]
  · simp [assemble_pet_eq]
  · rw [hpets]
    simp [assemble_pet_eq, stored_status_eq]
  · rw [hphotos]
    simp [assemble_pet_eq]
  · rw [hlinks]
    simp [assemble_pet_eq]
  · refine ⟨new, htags, ?_⟩
    intro r hr
    obtain ⟨t, ht, hrt⟩ := hnew r hr
    exact ⟨t, by simp [assemble_pet_eq]; exact ht, hrt⟩

/-- A request that re-uses the already-stored tag `(0, "string")` of the
fixture store under its identical id and name. -/
def reuse_req : CreatePetRequest :=
  ⟨some 11, "kitty", none, ["u2"], [Tag.with_values 0 "string"], none⟩

/-- Witness for the amended C4 over the fixture store, re-using the
already-stored tag `(0, "string")`: the upsert resolves to the request's
own id 0 and every written row mirrors the returned pet. -/
theorem add_pet_write_mirror_witness :
    ∃ (pet : Pet) (db' : DB),
      add_pet fixture_db reuse_req = (.ok pet, db') ∧
      pet = assemble_pet reuse_req
        (reuse_req.id.getD fixture_db.next_pet_id) ∧
      pet.id = some (reuse_req.id.getD fixture_db.next_pet_id) ∧
      db'.pets = fixture_db.pets ++
        [⟨reuse_req.id.getD fixture_db.next_pet_id, pet.name,
          pet.category.bind Category.id,
          (pet.status.getD Status.Available).to_str⟩] ∧
      db'.pet_photos = fixture_db.pet_photos ++
        pet.photo_urls.map
          (fun u => (reuse_req.id.getD fixture_db.next_pet_id, u)) ∧
      db'.pet_tags = fixture_db.pet_tags ++
        pet.tags.map
          (fun t => (reuse_req.id.getD fixture_db.next_pet_id, t.id.getD 0)) ∧
      (∃ new : List TagRow, db'.tags = fixture_db.tags ++ new ∧
        ∀ r ∈ new, ∃ t ∈ pet.tags, r = (⟨t.id.getD 0, t.name⟩ : TagRow)) :=
  add_pet_write_mirror fixture_db reuse_req (by decide) (by decide)
    (by decide) (by decide) (by decide)

/-- A store holding one pet row whose stored status string is not one of
the three recognized values. -/
def status_fixture_db : DB := ⟨[⟨7, "mystery", none, "weird"⟩], [], [], [], [], 8, 1, 1⟩

/-- Witness for C10 at the unrecognized stored string `"weird"`. -/
theorem find_status_decoding_witness :
    decode_status "weird" = Status.Available ∧
    (∃ st, ({ id := some 7, name := "mystery", category := none,
              photo_urls := [], tags := [],
              status := some Status.Available } : Pet).status = some st) :=
  ⟨find_status_decoding.2.2.2.1 "weird" (by decide) (by decide) (by decide),
   find_status_decoding.2.2.2.2 status_fixture_db 7
     { id := some 7, name := "mystery", category := none, photo_urls := [],
       tags := [], status := some Status.Available } (by decide)⟩

end Petstore
